import Mathlib

/-!
plotted: the OAuth callback and the /map handler of `main.go`.

A shallow embedding of the two HTTP handlers registered in `main`:

* `/auth_callback` (main.go 57-73): state check, token exchange, redirect;
* `/map` (main.go 75-172): date parsing and widening, the pagination loop over
  `GetLoggedInAthleteActivities`, and the per-activity loop that consults the
  `cache/<id>.cache` files, falls back to `GetActivityById`, writes the cache
  file and decodes the polyline.

Everything outside the repository (the file system, the remote service, the
token endpoint, the polyline decoder) is a parameter of the embedding.
-/

namespace Plotted

/-! ## Data model -/

/-- Raw bytes of a file or of a Go string, one natural number per byte. -/
abbrev Bytes := List Nat

/-- The directory `cache/`: for an activity identifier `id`, the content of the
file `cache/<id>.cache` when that file exists. `fmt.Sprintf("cache/%d.cache", id)`
is injective in `id`, so the store is keyed by the identifier itself. -/
abbrev Cache := Int → Option Bytes

/-- The cache directory holding no file. -/
def Cache.empty : Cache := fun _ => none

/-- The cache directory after the file of `id` has been given the content `b`. -/
def Cache.put (c : Cache) (id : Int) (b : Bytes) : Cache :=
  fun k => if k = id then some b else c k

/-- What the outside world answers during one iteration of the per-activity loop
(main.go 108-159). Only the answers to the calls the iteration really makes are
looked at.

* `ReadFile`: `ioutil.ReadFile` returns without error (line 121);
* `GetActivityById`: `none` when the call returns an error (line 128), else the
  field `detailed.Map_.Polyline` of the answer;
* `Create`: `os.Create` returns without error (line 138);
* `Write`: `none` when `file.Write` writes everything, `some n` when it returns
  an error after `n` bytes reached the file (line 144). -/
structure Outcome where
  ReadFile : Bool
  GetActivityById : Option Bytes
  Create : Bool
  Write : Option Nat
  deriving DecidableEq

/-- State threaded through the per-activity loop: the cache directory, the
accumulated `polylines` (line 106), and the calls issued so far:
`fetched` lists the identifiers passed to `GetActivityById`, `created` the
identifiers whose file was passed to `os.Create`, `written` those whose file was
passed to `file.Write`. -/
structure MapState (ρ : Type) where
  cache : Cache
  polylines : List ρ
  fetched : List Int
  created : List Int
  written : List Int

/-- State at the entry of the per-activity loop. -/
def MapState.init {ρ : Type} (cache : Cache) : MapState ρ :=
  { cache := cache, polylines := [], fetched := [], created := [], written := [] }

/-- Content of a file created empty by `os.Create` after `file.Write(polyline)`
returned with outcome `w`. -/
def fileAfterWrite (polyline : Bytes) (w : Option Nat) : Bytes :=
  match w with
  | none => polyline
  | some n => polyline.take n

/-- Lines 150-157: decode the bytes and append the route on success; a decoder
error is logged and nothing is appended. -/
def decodeStep {ρ : Type} (DecodeCoords : Bytes → Option ρ) (s : MapState ρ)
    (polyline : Bytes) : MapState ρ :=
  match DecodeCoords polyline with
  | none => s
  | some polylineDecoded => { s with polylines := s.polylines ++ [polylineDecoded] }

/-- One iteration of the per-activity loop, main.go 108-159, for the activity
`id`. `os.Stat` answers without error exactly when the cache file exists
(`cacheExists`, lines 111-116). Every `continue` of the source returns the
state reached so far. `os.Create` makes the file empty before `file.Write`
runs, and writes to an `*os.File` are not buffered, so a later iteration sees
what was written; `defer file.Close()` (line 143) runs when the handler
returns and changes no content. The iteration with an `os.Stat` that may fail
on a file that exists is `processActivityStat`. -/
def processActivity {ρ : Type} (DecodeCoords : Bytes → Option ρ) (o : Outcome)
    (s : MapState ρ) (id : Int) : MapState ρ :=
  match s.cache id with
  | some cacheContent =>
    -- cacheExists: lines 120-126
    if o.ReadFile then decodeStep DecodeCoords s cacheContent
    else s
  | none =>
    -- lines 127-148
    let s1 : MapState ρ := { s with fetched := s.fetched ++ [id] }
    match o.GetActivityById with
    | none => s1
    | some polyline =>
      if polyline = [] then s1
      else
        let s2 : MapState ρ := { s1 with created := s1.created ++ [id] }
        if o.Create then
          let s3 : MapState ρ :=
            { s2 with cache := s2.cache.put id (fileAfterWrite polyline o.Write),
                      written := s2.written ++ [id] }
          decodeStep DecodeCoords s3 polyline
        else s2

/-- The per-activity loop over the listing, each activity paired with what the
outside world answers during its iteration. -/
def aggregateLoop {ρ : Type} (DecodeCoords : Bytes → Option ρ) :
    List (Int × Outcome) → MapState ρ → MapState ρ
  | [], s => s
  | (id, o) :: rest, s =>
    aggregateLoop DecodeCoords rest (processActivity DecodeCoords o s id)

/-- Route aggregation of the /map handler, lines 106-159, started on the cache
directory `cache`. -/
def aggregate {ρ : Type} (DecodeCoords : Bytes → Option ρ) (cache : Cache)
    (run : List (Int × Outcome)) : MapState ρ :=
  aggregateLoop DecodeCoords run (MapState.init cache)

/-- The answers of a world in which every file operation and every remote call
succeeds, the remote polyline of activity `id` being `remote id`. -/
def succeeding (remote : Int → Bytes) (id : Int) : Outcome :=
  { ReadFile := true, GetActivityById := some (remote id), Create := true, Write := none }

/-- A listing run in which all I/O succeeds. -/
def succeedingRun (remote : Int → Bytes) (activities : List Int) : List (Int × Outcome) :=
  activities.map fun id => (id, succeeding remote id)

/-- The route one listed activity contributes when all I/O succeeds, read off
the cache at the start of the run and the remote polyline: the decoding of the
cached record when there is one, else the decoding of the fetched polyline when
it is not empty. -/
def routeOf {ρ : Type} (DecodeCoords : Bytes → Option ρ) (cache : Cache)
    (remote : Int → Bytes) (id : Int) : Option ρ :=
  match cache id with
  | some cacheContent => DecodeCoords cacheContent
  | none => if remote id = [] then none else DecodeCoords (remote id)

/-- Every cached record equals the remote's polyline of its identifier, and
that polyline is not empty. -/
def Consistent (remote : Int → Bytes) (cache : Cache) : Prop :=
  ∀ id b, cache id = some b → b = remote id ∧ b ≠ []

/-! ## The /auth_callback handler -/

/-- The package-level variables `code`, `token` and `state` (main.go 37-39);
`state` holds the nonce generated at startup (line 173). -/
structure Globals where
  code : String
  token : String
  state : String
  deriving DecidableEq

/-- What a handler sends back: `http.Error` with a message and a status, or
`http.Redirect` with a target and a status. -/
inductive Response where
  | Error (message : String) (status : Nat)
  | Redirect (url : String) (status : Nat)
  deriving DecidableEq

/-- Result of one /auth_callback request: the package-level variables after it,
the response, and the authorization codes handed to `conf.Exchange`. -/
structure CallbackResult where
  globals : Globals
  response : Response
  exchanged : List String
  deriving DecidableEq

/-- The /auth_callback handler, main.go 57-73. `Exchange` is the token endpoint:
for an authorization code, an error text or the access token. -/
def authCallback (Exchange : String → Except String String) (g : Globals)
    (queryCode queryState : String) : CallbackResult :=
  let g1 : Globals := { g with code := queryCode }
  let callbackState := queryState
  if callbackState ≠ g1.state then
    { globals := g1, response := Response.Error "state verification failed" 400,
      exchanged := [] }
  else
    match Exchange g1.code with
    | Except.error err =>
      { globals := g1,
        response := Response.Error ("could not exchange ouath2 token, err: " ++ err) 500,
        exchanged := [g1.code] }
    | Except.ok tok =>
      { globals := { g1 with token := tok },
        response :=
          Response.Redirect "http://localhost:8888/map?after=30/01/2018&before=30/09/2019" 302,
        exchanged := [g1.code] }

/-! ## Dates of the /map handler

A `time.Time` in UTC is kept as its number of Unix seconds. The query strings
are taken already split at the slashes of the layout `02/01/2006`. -/

/-- A calendar date as written in a query parameter `DD/MM/YYYY`. -/
structure Date where
  day : Nat
  month : Nat
  year : Int
  deriving DecidableEq

/-- Leap years of the proleptic Gregorian calendar (`isLeap` of package time). -/
def isLeap (year : Int) : Bool :=
  year % 4 = 0 ∧ (year % 100 ≠ 0 ∨ year % 400 = 0)

/-- Days of the year before the first of the month, in a common year
(`daysBefore` of package time). -/
def daysBefore (month : Nat) : Nat :=
  match month with
  | 1 => 0 | 2 => 31 | 3 => 59 | 4 => 90 | 5 => 120 | 6 => 151
  | 7 => 181 | 8 => 212 | 9 => 243 | 10 => 273 | 11 => 304 | 12 => 334
  | _ => 365

/-- Number of days of a month (`daysIn` of package time). -/
def daysIn (month : Nat) (year : Int) : Nat :=
  if month = 2 ∧ isLeap year then 29 else daysBefore (month + 1) - daysBefore month

/-- The dates `time.Parse` accepts under the layout `02/01/2006`: a four-digit
year, a month from 1 to 12, a day of that month. -/
def Date.valid (d : Date) : Bool :=
  0 ≤ d.year ∧ d.year ≤ 9999 ∧ 1 ≤ d.month ∧ d.month ≤ 12 ∧
    1 ≤ d.day ∧ d.day ≤ daysIn d.month d.year

/-- Days from 1970-01-01 to the date. -/
def Date.daysSinceEpoch (d : Date) : Int :=
  365 * d.year + (d.year + 3) / 4 - (d.year + 99) / 100 + (d.year + 399) / 400
    + daysBefore d.month + (if isLeap d.year ∧ 3 ≤ d.month then 1 else 0)
    + (d.day - 1) - 719528

/-- Unix seconds of midnight UTC of the date. -/
def Date.Unix (d : Date) : Int := 86400 * d.daysSinceEpoch

/-- Unix seconds of the zero `time.Time`, January 1 of year 1, 00:00 UTC. -/
def zeroTime : Int := -62135596800

/-- Line 86, `time.Parse(layout, unparsed)` with the error dropped: midnight UTC
of the date, and the zero time when the text is not a date. -/
def Parse (d : Date) : Int := if d.valid then d.Unix else zeroTime

/-- The call `t.AddDate(0, 0, days)` on a UTC time. -/
def AddDate (t : Int) (days : Int) : Int := t + 86400 * days

/-- Go conversion of an integer to `int32`: the low 32 bits, read as signed. -/
def int32 (x : Int) : Int := (x + 2 ^ 31) % 2 ^ 32 - 2 ^ 31

/-- The calendar day after a date. -/
def Date.next (d : Date) : Date :=
  if d.day < daysIn d.month d.year then { d with day := d.day + 1 }
  else if d.month < 12 then { day := 1, month := d.month + 1, year := d.year }
  else { day := 1, month := 1, year := d.year + 1 }

/-- The calendar day before a date. -/
def Date.prev (d : Date) : Date :=
  if 1 < d.day then { d with day := d.day - 1 }
  else if 1 < d.month then
    { day := daysIn (d.month - 1) d.year, month := d.month - 1, year := d.year }
  else { day := 31, month := 12, year := d.year - 1 }

/-- Calendar order of dates: by year, then month, then day. -/
def Date.le (a b : Date) : Bool :=
  a.year < b.year ∨ (a.year = b.year ∧ (a.month < b.month ∨
    (a.month = b.month ∧ a.day ≤ b.day)))

/-! ## The pagination loop -/

/-- The fields of `swagger.GetLoggedInAthleteActivitiesOpts` the handler sets. -/
structure Opts where
  After : Int
  Before : Int
  Page : Int
  PerPage : Int
  deriving DecidableEq

/-- Lines 94-97: the options of the request of loop counter `i`. -/
def listingOpts (after before : Int) (i : Nat) : Opts :=
  { After := int32 after, Before := int32 before, Page := int32 i, PerPage := 200 }

/-- The loop of lines 93-104 run for at most `fuel` iterations from the counter
`i`, with the requests sent so far and the activities collected so far.
`client` is `GetLoggedInAthleteActivities` with its error dropped, as on line
99. The result lists the requests sent, and the collected activities when the
loop has reached its `break`. The counter is a Go `int`, whose width is a
multiple of 32, so its own wrap-around does not show through `int32(i)`. -/
def listLoop {α : Type} (client : Opts → List α) (after before : Int) :
    Nat → Nat → List Opts → List α → List Opts × Option (List α)
  | 0, _, requests, _ => (requests, none)
  | fuel + 1, i, requests, activities =>
    let opts := listingOpts after before i
    let summary := client opts
    if summary.length = 0 then (requests ++ [opts], some activities)
    else listLoop client after before fuel (i + 1) (requests ++ [opts]) (activities ++ summary)

/-- Lines 83-104 of the /map handler: parse both dates, widen them by a day, and
page through the activities starting at page 1. -/
def listActivities {α : Type} (client : Opts → List α) (unparsedAfter unparsedBefore : Date)
    (fuel : Nat) : List Opts × Option (List α) :=
  listLoop client (AddDate (Parse unparsedAfter) (-1)) (AddDate (Parse unparsedBefore) 1)
    fuel 1 [] []

/-- The page function seen by the loop: the batch answered to the request of page
number `p` with page size 200 and the bounds of the handler. -/
def page {α : Type} (client : Opts → List α) (after before : Int) (p : Nat) : List α :=
  client { After := int32 after, Before := int32 before, Page := (p : Int), PerPage := 200 }

/-- A remote account of two non-empty pages: page 1 holds the activities 11 and
12, page 2 the activity 21, every other page is empty. -/
def twoPages (o : Opts) : List Int :=
  if o.Page = 1 then [11, 12] else if o.Page = 2 then [21] else []

/-! ## A reference polyline decoder

The decoder `gopoly.DecodeCoords` belongs to a library outside the repository;
the handler is embedded over an arbitrary decoder. The functions below decode
the precision-5 polyline format and serve as the decoder of the concrete
scenarios. A coordinate is kept as the integer number of 1e-5 degrees. -/

namespace gopoly

/-- One unsigned integer: five-bit groups, least significant first, each byte
offset by 63 and with 32 added while more groups follow. -/
def DecodeUint : Bytes → Nat → Nat → Option (Nat × Bytes)
  | [], _, _ => none
  | b :: rest, u, shift =>
    if 63 ≤ b ∧ b < 95 then some (u + (b - 63) * 2 ^ shift, rest)
    else if 95 ≤ b ∧ b < 127 then DecodeUint rest (u + (b - 95) * 2 ^ shift) (shift + 5)
    else none

/-- One signed integer: the lowest bit of the unsigned value is the sign. -/
def DecodeInt (buf : Bytes) : Option (Int × Bytes) :=
  match DecodeUint buf 0 0 with
  | none => none
  | some (u, rest) =>
    if u % 2 = 0 then some (((u / 2 : Nat) : Int), rest)
    else some (-(((u + 1) / 2 : Nat) : Int), rest)

/-- One coordinate pair. -/
def DecodeCoord (buf : Bytes) : Option ((Int × Int) × Bytes) :=
  match DecodeInt buf with
  | none => none
  | some (x, rest) =>
    match DecodeInt rest with
    | none => none
    | some (y, rest2) => some ((x, y), rest2)

/-- The pairs after the first one, each a difference to its predecessor. -/
def DecodeRest : Nat → Bytes → Int × Int → List (Int × Int) → Option (List (Int × Int))
  | 0, _, _, _ => none
  | fuel + 1, buf, prev, acc =>
    if buf = [] then some acc
    else
      match DecodeCoord buf with
      | none => none
      | some (d, rest) =>
        let coord := (prev.1 + d.1, prev.2 + d.2)
        DecodeRest fuel rest coord (acc ++ [coord])

/-- A whole polyline: at least one pair, then differences until the bytes end. -/
def DecodeCoords (buf : Bytes) : Option (List (Int × Int)) :=
  match DecodeCoord buf with
  | none => none
  | some (c, rest) => DecodeRest (rest.length + 1) rest c [c]

end gopoly

/-- The bytes of the string `"_p~iF~ps|U"`. -/
def examplePolyline : Bytes := [95, 112, 126, 105, 70, 126, 112, 115, 124, 85]

/-- The cache of the scenario: activity 1 is cached with `"_p~iF~ps|U"`,
nothing else is. -/
def scenarioCache : Cache := Cache.empty.put 1 examplePolyline

/-- The remote polylines of the scenario: empty for activity 2,
`"_p~iF~ps|U"` for every other activity. -/
def scenarioRemote (id : Int) : Bytes := if id = 2 then [] else examplePolyline

/-- A cache whose record of activity 1 is the single byte 0, which is not a
polyline, and whose record of activity 3 is `"_p~iF~ps|U"`. -/
def malformedCache : Cache := (Cache.empty.put 1 [0]).put 3 examplePolyline

/-- The answers of an iteration in which the detail fetch returns
`"_p~iF~ps|U"` and `os.Create` fails. -/
def createFails : Outcome :=
  { ReadFile := true, GetActivityById := some examplePolyline, Create := false, Write := none }

/-- The answers of an iteration in which the detail fetch returns
`"_p~iF~ps|U"`, `os.Create` succeeds and `file.Write` fails before any byte
reaches the file. -/
def writeFails : Outcome :=
  { ReadFile := true, GetActivityById := some examplePolyline, Create := true, Write := some 0 }

/-! ## The per-activity loop when `os.Stat` may fail -/

/-- What the outside world answers during one iteration of the per-activity loop
when `os.Stat` may fail as well. `Stat` tells whether `os.Stat` (line 111)
returns without error on a cache file that exists; on a file that does not
exist it returns an error whatever `Stat` says. `rest` holds the answers to the
other calls. -/
structure Answers where
  Stat : Bool
  rest : Outcome
  deriving DecidableEq

/-- One iteration of the per-activity loop, main.go 108-159, with the outcome
of `os.Stat`. Lines 111-116 set `cacheExists` only when `os.Stat` returns no
error, so an error on a file that exists is taken for a miss; `os.Create`
(line 138) then truncates that file and `file.Write` fills it anew. -/
def processActivityStat {ρ : Type} (DecodeCoords : Bytes → Option ρ) (a : Answers)
    (s : MapState ρ) (id : Int) : MapState ρ :=
  let found : Option Bytes := if a.Stat then s.cache id else none
  match found with
  | some cacheContent =>
    -- cacheExists: lines 120-126
    if a.rest.ReadFile then decodeStep DecodeCoords s cacheContent
    else s
  | none =>
    -- lines 127-148
    let s1 : MapState ρ := { s with fetched := s.fetched ++ [id] }
    match a.rest.GetActivityById with
    | none => s1
    | some polyline =>
      if polyline = [] then s1
      else
        let s2 : MapState ρ := { s1 with created := s1.created ++ [id] }
        if a.rest.Create then
          let s3 : MapState ρ :=
            { s2 with cache := s2.cache.put id (fileAfterWrite polyline a.rest.Write),
                      written := s2.written ++ [id] }
          decodeStep DecodeCoords s3 polyline
        else s2

/-- The per-activity loop over the listing, each activity paired with the
answers of its iteration, `os.Stat` included. -/
def aggregateLoopStat {ρ : Type} (DecodeCoords : Bytes → Option ρ) :
    List (Int × Answers) → MapState ρ → MapState ρ
  | [], s => s
  | (id, a) :: rest, s =>
    aggregateLoopStat DecodeCoords rest (processActivityStat DecodeCoords a s id)

/-- Route aggregation of the /map handler, lines 106-159, started on the cache
directory `cache`, with the outcomes of `os.Stat`. -/
def aggregateStat {ρ : Type} (DecodeCoords : Bytes → Option ρ) (cache : Cache)
    (run : List (Int × Answers)) : MapState ρ :=
  aggregateLoopStat DecodeCoords run (MapState.init cache)

/-- A listing run in which `os.Stat` and all other I/O succeed. -/
def succeedingStatRun (remote : Int → Bytes) (activities : List Int) : List (Int × Answers) :=
  activities.map fun id => (id, { Stat := true, rest := succeeding remote id })

/-- The answers of an iteration in which `os.Stat` returns an error and every
other call succeeds, the detail fetch returning `"_p~iF~ps|U"`. -/
def statFails : Answers :=
  { Stat := false, rest := succeeding scenarioRemote 1 }

/-! ## Lemmas on the per-activity loop -/

theorem decodeStep_cache {ρ : Type} (dec : Bytes → Option ρ) (s : MapState ρ) (p : Bytes) :
    (decodeStep dec s p).cache = s.cache := by
  unfold decodeStep
  cases dec p <;> rfl

theorem decodeStep_polylines {ρ : Type} (dec : Bytes → Option ρ) (s : MapState ρ) (p : Bytes) :
    (decodeStep dec s p).polylines = s.polylines ++ (dec p).toList := by
  unfold decodeStep
  cases dec p <;> simp

theorem decodeStep_fetched {ρ : Type} (dec : Bytes → Option ρ) (s : MapState ρ) (p : Bytes) :
    (decodeStep dec s p).fetched = s.fetched := by
  unfold decodeStep
  cases dec p <;> rfl

theorem decodeStep_created {ρ : Type} (dec : Bytes → Option ρ) (s : MapState ρ) (p : Bytes) :
    (decodeStep dec s p).created = s.created := by
  unfold decodeStep
  cases dec p <;> rfl

theorem decodeStep_written {ρ : Type} (dec : Bytes → Option ρ) (s : MapState ρ) (p : Bytes) :
    (decodeStep dec s p).written = s.written := by
  unfold decodeStep
  cases dec p <;> rfl

theorem decodeStep_of_none {ρ : Type} (dec : Bytes → Option ρ) (s : MapState ρ) (p : Bytes)
    (h : dec p = none) : decodeStep dec s p = s := by
  unfold decodeStep
  rw [h]

theorem Cache.put_self (c : Cache) (id : Int) (b : Bytes) : c.put id b id = some b := by
  simp [Cache.put]

theorem Cache.put_other (c : Cache) (id k : Int) (b : Bytes) (h : k ≠ id) :
    c.put id b k = c k := by
  simp [Cache.put, h]

/-- An iteration on a cache hit: the record is read and decoded, or skipped
when it cannot be read. -/
theorem processActivity_hit {ρ : Type} (dec : Bytes → Option ρ) (o : Outcome)
    (s : MapState ρ) (id : Int) (b : Bytes) (h : s.cache id = some b) :
    processActivity dec o s id = if o.ReadFile then decodeStep dec s b else s := by
  unfold processActivity
  rw [h]

/-- An iteration leaves every record that exists as it is. -/
theorem processActivity_keeps {ρ : Type} (dec : Bytes → Option ρ) (o : Outcome)
    (s : MapState ρ) (id k : Int) (b : Bytes) (h : s.cache k = some b) :
    (processActivity dec o s id).cache k = some b := by
  unfold processActivity
  cases hc : s.cache id with
  | some c =>
    by_cases hr : o.ReadFile = true
    · simp [hr, decodeStep_cache, h]
    · simp [hr, h]
  | none =>
    have hk : k ≠ id := by
      intro e
      rw [e, hc] at h
      exact Option.noConfusion h
    cases o.GetActivityById with
    | none => simpa using h
    | some p =>
      by_cases hp : p = []
      · simpa [hp] using h
      · by_cases hcr : o.Create = true
        · simp [hp, hcr, decodeStep_cache, Cache.put_other _ _ _ _ hk, h]
        · simpa [hp, hcr] using h

theorem aggregateLoop_keeps {ρ : Type} (dec : Bytes → Option ρ) (run : List (Int × Outcome)) :
    ∀ (s : MapState ρ) (k : Int) (b : Bytes), s.cache k = some b →
      (aggregateLoop dec run s).cache k = some b := by
  induction run with
  | nil => intro s k b h; exact h
  | cons e rest ih =>
    intro s k b h
    obtain ⟨id, o⟩ := e
    exact ih _ k b (processActivity_keeps dec o s id k b h)

/-! ### All I/O succeeding -/

theorem processActivity_succeeding_polylines {ρ : Type} (dec : Bytes → Option ρ)
    (remote : Int → Bytes) (s : MapState ρ) (id : Int) :
    (processActivity dec (succeeding remote id) s id).polylines
      = s.polylines ++ (routeOf dec s.cache remote id).toList := by
  unfold processActivity routeOf succeeding
  cases hc : s.cache id with
  | some c => simp [decodeStep_polylines]
  | none =>
    by_cases hp : remote id = []
    · simp [hp]
    · simp [hp, decodeStep_polylines]

theorem routeOf_processActivity_succeeding {ρ : Type} (dec : Bytes → Option ρ)
    (remote : Int → Bytes) (s : MapState ρ) (id k : Int) :
    routeOf dec (processActivity dec (succeeding remote id) s id).cache remote k
      = routeOf dec s.cache remote k := by
  cases hc : s.cache id with
  | some c =>
    rw [processActivity_hit dec _ s id c hc]
    simp [succeeding, decodeStep_cache]
  | none =>
    unfold processActivity succeeding
    rw [hc]
    by_cases hp : remote id = []
    · simp [hp]
    · simp only [hp, if_false, if_true, decodeStep_cache, fileAfterWrite]
      by_cases hk : k = id
      · subst hk
        simp [routeOf, Cache.put_self, hc, hp]
      · simp [routeOf, Cache.put_other _ _ _ _ hk]

theorem aggregateLoop_succeeding_polylines {ρ : Type} (dec : Bytes → Option ρ)
    (remote : Int → Bytes) (activities : List Int) :
    ∀ s : MapState ρ,
      (aggregateLoop dec (succeedingRun remote activities) s).polylines
        = s.polylines ++ activities.filterMap (routeOf dec s.cache remote) := by
  induction activities with
  | nil => intro s; simp [succeedingRun, aggregateLoop]
  | cons id rest ih =>
    intro s
    have hfun : routeOf dec (processActivity dec (succeeding remote id) s id).cache remote
        = routeOf dec s.cache remote :=
      funext fun k => routeOf_processActivity_succeeding dec remote s id k
    have := ih (processActivity dec (succeeding remote id) s id)
    simp only [succeedingRun, List.map_cons, aggregateLoop] at this ⊢
    rw [this, hfun, processActivity_succeeding_polylines]
    cases hr : routeOf dec s.cache remote id <;> simp [List.filterMap_cons, hr]

theorem routeOf_of_consistent {ρ : Type} (dec : Bytes → Option ρ) (remote : Int → Bytes)
    (cache : Cache) (h : Consistent remote cache) (id : Int) :
    routeOf dec cache remote id = routeOf dec Cache.empty remote id := by
  unfold routeOf
  cases hc : cache id with
  | none => simp [Cache.empty]
  | some b =>
    obtain ⟨hb, hne⟩ := h id b hc
    have hr : remote id ≠ [] := by rw [← hb]; exact hne
    simp [Cache.empty, hr, hb]

theorem processActivity_succeeding_consistent {ρ : Type} (dec : Bytes → Option ρ)
    (remote : Int → Bytes) (s : MapState ρ) (id : Int) (h : Consistent remote s.cache) :
    Consistent remote (processActivity dec (succeeding remote id) s id).cache := by
  cases hc : s.cache id with
  | some c =>
    rw [processActivity_hit dec _ s id c hc]
    simpa [succeeding, decodeStep_cache] using h
  | none =>
    unfold processActivity succeeding
    rw [hc]
    by_cases hp : remote id = []
    · simpa [hp] using h
    · simp only [hp, if_false, if_true, decodeStep_cache, fileAfterWrite]
      intro k b hk
      by_cases hkid : k = id
      · subst hkid
        rw [Cache.put_self] at hk
        cases hk
        exact ⟨rfl, hp⟩
      · rw [Cache.put_other _ _ _ _ hkid] at hk
        exact h k b hk

theorem aggregateLoop_succeeding_consistent {ρ : Type} (dec : Bytes → Option ρ)
    (remote : Int → Bytes) (activities : List Int) :
    ∀ s : MapState ρ, Consistent remote s.cache →
      Consistent remote (aggregateLoop dec (succeedingRun remote activities) s).cache := by
  induction activities with
  | nil => intro s h; exact h
  | cons id rest ih =>
    intro s h
    exact ih _ (processActivity_succeeding_consistent dec remote s id h)

/-! ### Arbitrary outcomes, `os.Stat` included -/

/-- With `os.Stat` succeeding, the iteration is the one of `processActivity`. -/
theorem processActivityStat_exact {ρ : Type} (dec : Bytes → Option ρ) (a : Answers)
    (s : MapState ρ) (id : Int) (h : a.Stat = true) :
    processActivityStat dec a s id = processActivity dec a.rest s id := by
  unfold processActivityStat processActivity
  simp only [h, if_true]

theorem aggregateLoopStat_exact {ρ : Type} (dec : Bytes → Option ρ)
    (run : List (Int × Answers)) :
    ∀ s : MapState ρ, (∀ e ∈ run, e.2.Stat = true) →
      aggregateLoopStat dec run s
        = aggregateLoop dec (run.map fun e => (e.1, e.2.rest)) s := by
  induction run with
  | nil => intro s _; rfl
  | cons e rest ih =>
    intro s h
    obtain ⟨id, a⟩ := e
    have ha : a.Stat = true := h (id, a) (List.mem_cons_self _ _)
    simp only [aggregateLoopStat, List.map_cons, aggregateLoop,
      processActivityStat_exact dec a s id ha]
    exact ih _ (fun e he => h e (List.mem_cons_of_mem _ he))

/-- The cache after an iteration: the cache before it, or that cache with the
file of the activity rewritten. The file is rewritten only when `os.Stat`
reported no file, the detail fetch returned a non-empty polyline and
`os.Create` succeeded, and it then holds what `file.Write` wrote. -/
theorem processActivityStat_cache {ρ : Type} (dec : Bytes → Option ρ) (a : Answers)
    (s : MapState ρ) (id : Int) :
    (processActivityStat dec a s id).cache = s.cache ∨
    ((s.cache id = none ∨ a.Stat = false) ∧
      ∃ polyline, a.rest.GetActivityById = some polyline ∧ polyline ≠ [] ∧
        a.rest.Create = true ∧
        (processActivityStat dec a s id).cache
          = s.cache.put id (fileAfterWrite polyline a.rest.Write)) := by
  cases hfound : (if a.Stat = true then s.cache id else none) with
  | some c =>
    left
    unfold processActivityStat
    simp only [hfound]
    by_cases hr : a.rest.ReadFile = true
    · simp [hr, decodeStep_cache]
    · simp [hr]
  | none =>
    have hm : s.cache id = none ∨ a.Stat = false := by
      by_cases hst : a.Stat = true
      · left; simpa [hst] using hfound
      · right; simpa using hst
    unfold processActivityStat
    simp only [hfound]
    cases hg : a.rest.GetActivityById with
    | none => left; rfl
    | some p =>
      by_cases hp : p = []
      · left; simp [hp]
      · by_cases hcr : a.rest.Create = true
        · right
          refine ⟨hm, p, rfl, hp, hcr, ?_⟩
          simp [hp, hcr, decodeStep_cache]
        · left; simp [hp, hcr]

/-- An iteration never removes a record. -/
theorem processActivityStat_isSome {ρ : Type} (dec : Bytes → Option ρ) (a : Answers)
    (s : MapState ρ) (id k : Int) (h : (s.cache k).isSome = true) :
    ((processActivityStat dec a s id).cache k).isSome = true := by
  rcases processActivityStat_cache dec a s id with hc | ⟨_, p, _, _, _, hc⟩
  · rw [hc]; exact h
  · rw [hc]
    by_cases hk : k = id
    · subst hk; rw [Cache.put_self]; rfl
    · rw [Cache.put_other _ _ _ _ hk]; exact h

/-- An iteration keeps the bytes of a record, unless it is the record of the
activity of the iteration and `os.Stat` fails. -/
theorem processActivityStat_keeps {ρ : Type} (dec : Bytes → Option ρ) (a : Answers)
    (s : MapState ρ) (id k : Int) (b : Bytes) (h : s.cache k = some b)
    (hst : k = id → a.Stat = true) :
    (processActivityStat dec a s id).cache k = some b := by
  rcases processActivityStat_cache dec a s id with hc | ⟨hm, p, _, _, _, hc⟩
  · rw [hc]; exact h
  · rw [hc]
    by_cases hk : k = id
    · subst hk
      rcases hm with hm | hm
      · rw [hm] at h; exact Option.noConfusion h
      · rw [hst rfl] at hm; exact Bool.noConfusion hm
    · rw [Cache.put_other _ _ _ _ hk]; exact h

/-- A record whose bytes an iteration has changed or added is the record of the
activity of the iteration. -/
theorem processActivityStat_changed {ρ : Type} (dec : Bytes → Option ρ) (a : Answers)
    (s : MapState ρ) (id k : Int) (b : Bytes)
    (h1 : (processActivityStat dec a s id).cache k = some b) (h0 : s.cache k ≠ some b) :
    k = id ∧ (s.cache id = none ∨ a.Stat = false) ∧
      ∃ polyline, a.rest.GetActivityById = some polyline ∧ polyline ≠ [] ∧
        a.rest.Create = true ∧ b = fileAfterWrite polyline a.rest.Write := by
  rcases processActivityStat_cache dec a s id with hc | ⟨hm, p, hg, hp, hcr, hc⟩
  · rw [hc] at h1; exact absurd h1 h0
  · rw [hc] at h1
    by_cases hk : k = id
    · subst hk
      rw [Cache.put_self] at h1
      cases h1
      exact ⟨rfl, hm, p, hg, hp, hcr, rfl⟩
    · rw [Cache.put_other _ _ _ _ hk] at h1
      exact absurd h1 h0

theorem aggregateLoopStat_isSome {ρ : Type} (dec : Bytes → Option ρ)
    (run : List (Int × Answers)) :
    ∀ (s : MapState ρ) (k : Int), (s.cache k).isSome = true →
      ((aggregateLoopStat dec run s).cache k).isSome = true := by
  induction run with
  | nil => intro s k h; exact h
  | cons e rest ih =>
    intro s k h
    obtain ⟨id, a⟩ := e
    exact ih _ k (processActivityStat_isSome dec a s id k h)

theorem aggregateLoopStat_keeps {ρ : Type} (dec : Bytes → Option ρ)
    (run : List (Int × Answers)) :
    ∀ (s : MapState ρ) (k : Int) (b : Bytes), s.cache k = some b →
      (∀ e ∈ run, e.1 = k → e.2.Stat = true) →
      (aggregateLoopStat dec run s).cache k = some b := by
  induction run with
  | nil => intro s k b h _; exact h
  | cons e rest ih =>
    intro s k b h hst
    obtain ⟨id, a⟩ := e
    exact ih _ k b
      (processActivityStat_keeps dec a s id k b h
        (fun hk => hst (id, a) (List.mem_cons_self _ _) hk.symm))
      (fun e he => hst e (List.mem_cons_of_mem _ he))

theorem aggregateLoopStat_changed {ρ : Type} (dec : Bytes → Option ρ)
    (run : List (Int × Answers)) :
    ∀ (s : MapState ρ) (k : Int) (b : Bytes),
      (aggregateLoopStat dec run s).cache k = some b → s.cache k ≠ some b →
      ∃ a polyline, (k, a) ∈ run ∧ (s.cache k = none ∨ a.Stat = false) ∧
        a.rest.GetActivityById = some polyline ∧ polyline ≠ [] ∧
        a.rest.Create = true ∧ b = fileAfterWrite polyline a.rest.Write := by
  induction run with
  | nil =>
    intro s k b h1 h0
    exact absurd h1 h0
  | cons e rest ih =>
    intro s k b h1 h0
    obtain ⟨id, a⟩ := e
    rw [aggregateLoopStat] at h1
    by_cases hs : (processActivityStat dec a s id).cache k = some b
    · obtain ⟨hk, hm, p, hg, hp, hcr, hb⟩ := processActivityStat_changed dec a s id k b hs h0
      subst hk
      exact ⟨a, p, List.mem_cons_self _ _, hm, hg, hp, hcr, hb⟩
    · obtain ⟨a2, p, hmem, hm, hrest⟩ := ih _ k b h1 hs
      refine ⟨a2, p, List.mem_cons_of_mem _ hmem, ?_, hrest⟩
      rcases hm with hm | hm
      · left
        cases hc : s.cache k with
        | none => rfl
        | some c =>
          have := processActivityStat_isSome dec a s id k (by rw [hc]; rfl)
          rw [hm] at this
          exact Bool.noConfusion this
      · right; exact hm

/-- A record that exists and does not decode makes the iterations of its
activity leave the state as it is. -/
theorem processActivity_malformed {ρ : Type} (dec : Bytes → Option ρ) (o : Outcome)
    (s : MapState ρ) (a : Int) (b : Bytes) (hc : s.cache a = some b) (hd : dec b = none) :
    processActivity dec o s a = s := by
  rw [processActivity_hit dec o s a b hc, decodeStep_of_none dec s b hd]
  simp

theorem aggregateLoop_malformed {ρ : Type} (dec : Bytes → Option ρ) (a : Int) (b : Bytes)
    (hd : dec b = none) (run : List (Int × Outcome)) :
    ∀ s : MapState ρ, s.cache a = some b →
      aggregateLoop dec run s = aggregateLoop dec (run.filter fun e => decide (e.1 ≠ a)) s := by
  induction run with
  | nil => intro s _; rfl
  | cons e rest ih =>
    intro s hc
    obtain ⟨id, o⟩ := e
    by_cases hid : id = a
    · subst hid
      have hf : ((id, o) :: rest).filter (fun e => decide (e.1 ≠ id))
          = rest.filter (fun e => decide (e.1 ≠ id)) := by
        simp [List.filter_cons]
      rw [hf, aggregateLoop, processActivity_malformed dec o s id b hc hd]
      exact ih s hc
    · have hf : ((id, o) :: rest).filter (fun e => decide (e.1 ≠ a))
          = (id, o) :: rest.filter (fun e => decide (e.1 ≠ a)) := by
        simp [List.filter_cons, hid]
      rw [hf, aggregateLoop, aggregateLoop]
      exact ih _ (processActivity_keeps dec o s id a b hc)

/-- When every listed activity has a record that can be read, the loop only
appends the decodings of the records. -/
theorem aggregateLoop_all_hits {ρ : Type} (dec : Bytes → Option ρ)
    (run : List (Int × Outcome)) :
    ∀ s : MapState ρ, (∀ e ∈ run, (s.cache e.1).isSome = true ∧ e.2.ReadFile = true) →
      aggregateLoop dec run s
        = { s with polylines :=
              s.polylines ++ (run.map Prod.fst).filterMap fun id => (s.cache id).bind dec } := by
  induction run with
  | nil => intro s _; simp [aggregateLoop]
  | cons e rest ih =>
    intro s h
    obtain ⟨id, o⟩ := e
    obtain ⟨hsome, hread⟩ := h (id, o) (List.mem_cons_self _ _)
    obtain ⟨b, hb⟩ := Option.isSome_iff_exists.mp hsome
    have hstep : processActivity dec o s id
        = { s with polylines := s.polylines ++ (dec b).toList } := by
      rw [processActivity_hit dec o s id b hb]
      simp only [] at hread
      simp only [hread, if_true]
      unfold decodeStep
      cases dec b <;> simp
    have hb2 : s.cache id = some b := hb
    rw [aggregateLoop, hstep]
    rw [ih { s with polylines := s.polylines ++ (dec b).toList }
      (fun e he => h e (List.mem_cons_of_mem _ he))]
    cases hd : dec b <;> simp [List.filterMap_cons, hb2, hd]

/-! ## Lemmas on dates -/

theorem Date.valid_iff (d : Date) : d.valid = true ↔
    0 ≤ d.year ∧ d.year ≤ 9999 ∧ 1 ≤ d.month ∧ d.month ≤ 12 ∧
    1 ≤ d.day ∧ d.day ≤ daysIn d.month d.year := by
  simp [Date.valid]

theorem isLeap_iff (y : Int) : isLeap y = true ↔ (y % 4 = 0 ∧ (y % 100 ≠ 0 ∨ y % 400 = 0)) := by
  simp [isLeap]


theorem daysIn_pos_facts (m : Nat) (y : Int) (h1 : 1 ≤ m) (h12 : m ≤ 12) :
    (daysBefore (m + 1) : Int) + (if isLeap y = true ∧ 3 ≤ m + 1 then 1 else 0)
      = daysBefore m + (if isLeap y = true ∧ 3 ≤ m then 1 else 0) + daysIn m y := by
  cases hl : isLeap y <;> interval_cases m <;> simp [daysIn, daysBefore, hl]

theorem yearDays_succ (y : Int) :
    365 * (y + 1) + (y + 1 + 3) / 4 - (y + 1 + 99) / 100 + (y + 1 + 399) / 400
      = 365 * y + (y + 3) / 4 - (y + 99) / 100 + (y + 399) / 400 + 365
        + (if isLeap y = true then 1 else 0) := by
  have e1 : (y % 100) % 4 = y % 4 := Int.emod_emod_of_dvd y (by norm_num)
  have e2 : (y % 400) % 100 = y % 100 := Int.emod_emod_of_dvd y (by norm_num)
  have a4 : (y + 1 + 3) / 4 = y / 4 + 1 := by omega
  have a100 : (y + 1 + 99) / 100 = y / 100 + 1 := by omega
  have a400 : (y + 1 + 399) / 400 = y / 400 + 1 := by omega
  have c4 : y % 4 = 0 → (y + 3) / 4 = y / 4 := by omega
  have d4 : y % 4 ≠ 0 → (y + 3) / 4 = y / 4 + 1 := by omega
  have c100 : y % 100 = 0 → (y + 99) / 100 = y / 100 := by omega
  have d100 : y % 100 ≠ 0 → (y + 99) / 100 = y / 100 + 1 := by omega
  have c400 : y % 400 = 0 → (y + 399) / 400 = y / 400 := by omega
  have d400 : y % 400 ≠ 0 → (y + 399) / 400 = y / 400 + 1 := by omega
  have m4 : y % 100 = 0 → y % 4 = 0 := by omega
  have m100 : y % 400 = 0 → y % 100 = 0 := by omega
  rw [a4, a100, a400]
  by_cases hl : isLeap y = true
  · have hl2 := (isLeap_iff y).mp hl
    rw [if_pos hl]
    obtain ⟨h4, h⟩ := hl2
    rw [c4 h4]
    rcases h with h | h
    · have h400 : y % 400 ≠ 0 := fun h' => h (m100 h')
      rw [d100 h, d400 h400]
      ring
    · rw [c100 (m100 h), c400 h]
      ring
  · have hl2 : ¬ (y % 4 = 0 ∧ (y % 100 ≠ 0 ∨ y % 400 = 0)) :=
      fun h => hl ((isLeap_iff y).mpr h)
    rw [if_neg hl]
    by_cases h4 : y % 4 = 0
    · have h100 : y % 100 = 0 := by
        by_contra h
        exact hl2 ⟨h4, Or.inl h⟩
      have h400 : y % 400 ≠ 0 := fun h => hl2 ⟨h4, Or.inr h⟩
      rw [c4 h4, c100 h100, d400 h400]
      ring
    · have h100 : y % 100 ≠ 0 := fun h => h4 (m4 h)
      have h400 : y % 400 ≠ 0 := fun h => h100 (m100 h)
      rw [d4 h4, d100 h100, d400 h400]
      ring

theorem Date.daysSinceEpoch_next (d : Date) (h : d.valid = true) :
    d.next.daysSinceEpoch = d.daysSinceEpoch + 1 := by
  obtain ⟨day, month, year⟩ := d
  rw [Date.valid_iff] at h
  obtain ⟨_, _, hm1, hm12, hd1, hd⟩ := h
  simp only at hm1 hm12 hd1 hd
  have hA := daysIn_pos_facts month year hm1 hm12
  have hC := yearDays_succ year
  unfold Date.next Date.daysSinceEpoch
  by_cases h1 : day < daysIn month year
  · simp only [h1, if_true]
    push_cast
    omega
  · have hday : day = daysIn month year := by omega
    by_cases h2 : month < 12
    · simp only [h1, h2, if_true, if_false] at hA ⊢
      push_cast at hA ⊢
      omega
    · have h3 : month = 12 := by omega
      subst h3
      simp only [h1, h2, if_false]
      simp [daysBefore] at hA ⊢
      split_ifs at hA hC ⊢ <;> omega

theorem Date.daysSinceEpoch_prev (d : Date) (h : d.valid = true) :
    d.prev.daysSinceEpoch = d.daysSinceEpoch - 1 := by
  obtain ⟨day, month, year⟩ := d
  rw [Date.valid_iff] at h
  obtain ⟨_, _, hm1, hm12, hd1, hd⟩ := h
  simp only at hm1 hm12 hd1 hd
  unfold Date.prev Date.daysSinceEpoch
  by_cases h1 : 1 < day
  · simp only [h1, if_true]
    omega
  · have hday : day = 1 := by omega
    subst hday
    by_cases h2 : 1 < month
    · have hA := daysIn_pos_facts (month - 1) year (by omega) (by omega)
      have hm : month - 1 + 1 = month := by omega
      rw [hm] at hA
      simp only [h1, h2, if_true, if_false] at hA ⊢
      push_cast at hA ⊢
      omega
    · have h3 : month = 1 := by omega
      subst h3
      have hC := yearDays_succ (year - 1)
      have hy : year - 1 + 1 = year := by ring
      rw [hy] at hC
      simp only [h1, h2, if_false]
      simp [daysBefore] at hC ⊢
      split_ifs at hC ⊢ <;> omega

theorem yearDays_mono (y z : Int) (h : y < z) :
    365 * y + (y + 3) / 4 - (y + 99) / 100 + (y + 399) / 400 + 365
        + (if isLeap y = true then 1 else 0)
      ≤ 365 * z + (z + 3) / 4 - (z + 99) / 100 + (z + 399) / 400 := by
  obtain ⟨n, rfl⟩ : ∃ n : Nat, z = y + 1 + n := ⟨(z - (y + 1)).toNat, by omega⟩
  clear h
  induction n with
  | zero => simpa using le_of_eq (yearDays_succ y).symm
  | succ k ih =>
    have h1 := yearDays_succ (y + 1 + k)
    have h2 : y + 1 + ((k + 1 : Nat) : Int) = y + 1 + k + 1 := by push_cast; ring
    rw [h2]
    split_ifs at h1 ih ⊢ <;> omega

theorem dayOfYear_bounds (m : Nat) (day : Nat) (y : Int) (h1 : 1 ≤ m) (h12 : m ≤ 12)
    (hd1 : 1 ≤ day) (hd : day ≤ daysIn m y) :
    (0 : Int) ≤ daysBefore m + (if isLeap y = true ∧ 3 ≤ m then 1 else 0) + (day - 1) ∧
    (daysBefore m : Int) + (if isLeap y = true ∧ 3 ≤ m then 1 else 0) + (day - 1)
      ≤ 364 + (if isLeap y = true then 1 else 0) := by
  cases hl : isLeap y <;> interval_cases m <;> simp [daysIn, daysBefore, hl] at hd ⊢ <;> omega

theorem monthStart_mono (m n : Nat) (y : Int) (h1 : 1 ≤ m) (hmn : m < n) (h12 : n ≤ 12) :
    (daysBefore m : Int) + (if isLeap y = true ∧ 3 ≤ m then 1 else 0) + daysIn m y
      ≤ daysBefore n + (if isLeap y = true ∧ 3 ≤ n then 1 else 0) := by
  have hmn2 : m + 1 ≤ n := hmn
  induction n, hmn2 using Nat.le_induction with
  | base => exact le_of_eq (daysIn_pos_facts m y h1 (by omega)).symm
  | succ k hk ih =>
    have h2 := daysIn_pos_facts k y (by omega) (by omega)
    have h3 := ih (by omega) (by omega)
    have h4 : (0 : Int) ≤ daysIn k y := Int.natCast_nonneg _
    omega

theorem Date.daysSinceEpoch_mono (a b : Date) (ha : a.valid = true) (hb : b.valid = true)
    (h : Date.le a b = true) : a.daysSinceEpoch ≤ b.daysSinceEpoch := by
  obtain ⟨d1, m1, y1⟩ := a
  obtain ⟨d2, m2, y2⟩ := b
  rw [Date.valid_iff] at ha hb
  obtain ⟨_, _, ha1, ha12, had1, had⟩ := ha
  obtain ⟨_, _, hb1, hb12, hbd1, hbd⟩ := hb
  simp only at ha1 ha12 had1 had hb1 hb12 hbd1 hbd
  simp only [Date.le, Bool.decide_or, Bool.decide_and, Bool.or_eq_true, Bool.and_eq_true,
    decide_eq_true_eq] at h
  have hA := dayOfYear_bounds m1 d1 y1 ha1 ha12 had1 had
  have hB := dayOfYear_bounds m2 d2 y2 hb1 hb12 hbd1 hbd
  unfold Date.daysSinceEpoch
  simp only
  rcases h with h | ⟨hy, h⟩
  · have := yearDays_mono y1 y2 h
    omega
  · subst hy
    rcases h with h | ⟨hm, h⟩
    · have := monthStart_mono m1 m2 y1 ha1 h hb12
      have hc : (d1 : Int) ≤ daysIn m1 y1 := by exact_mod_cast had
      omega
    · subst hm
      have hc : (d1 : Int) ≤ d2 := by exact_mod_cast h
      omega
/-! ## Lemmas on the pagination loop -/

theorem int32_of_fits (x : Int) (h1 : -2 ^ 31 ≤ x) (h2 : x < 2 ^ 31) : int32 x = x := by
  unfold int32
  omega

/-- The loop run through `n` non-empty pages up to an empty one. -/
theorem listLoop_run {α : Type} (client : Opts → List α) (after before : Int) (n : Nat) :
    ∀ (i fuel : Nat) (requests : List Opts) (activities : List α),
      (∀ k, k < n → client (listingOpts after before (i + k)) ≠ []) →
      client (listingOpts after before (i + n)) = [] → n < fuel →
      listLoop client after before fuel i requests activities
        = (requests ++ (List.range' i (n + 1)).map (listingOpts after before),
           some (activities ++
             ((List.range' i n).map fun k => client (listingOpts after before k)).flatten)) := by
  induction n with
  | zero =>
    intro i fuel requests activities _ hempty hfuel
    obtain ⟨f, rfl⟩ : ∃ f, fuel = f + 1 := ⟨fuel - 1, by omega⟩
    simp only [Nat.add_zero] at hempty
    simp [listLoop, hempty]
  | succ n ih =>
    intro i fuel requests activities hne hempty hfuel
    obtain ⟨f, rfl⟩ : ∃ f, fuel = f + 1 := ⟨fuel - 1, by omega⟩
    have h0 : client (listingOpts after before i) ≠ [] := by simpa using hne 0 (by omega)
    have hstep := ih (i + 1) f (requests ++ [listingOpts after before i])
      (activities ++ client (listingOpts after before i))
      (fun k hk => by
        have := hne (k + 1) (by omega)
        rwa [show i + (k + 1) = i + 1 + k by omega] at this)
      (by rwa [show i + (n + 1) = i + 1 + n by omega] at hempty) (by omega)
    rw [listLoop]
    simp only [List.length_eq_zero, h0, if_false]
    rw [hstep]
    simp [List.range'_succ, List.append_assoc]

/-- Every request the loop sends carries the two bounds and the page size. -/
theorem listLoop_requests {α : Type} (client : Opts → List α) (after before : Int) :
    ∀ (fuel i : Nat) (requests : List Opts) (activities : List α) (r : Opts),
      r ∈ (listLoop client after before fuel i requests activities).1 →
      r ∈ requests ∨ (r.After = int32 after ∧ r.Before = int32 before ∧ r.PerPage = 200) := by
  intro fuel
  induction fuel with
  | zero => intro i requests activities r h; exact Or.inl h
  | succ f ih =>
    intro i requests activities r h
    rw [listLoop] at h
    by_cases h0 : (client (listingOpts after before i)).length = 0
    · simp only [h0, if_true, List.mem_append, List.mem_singleton] at h
      rcases h with h | h
      · exact Or.inl h
      · subst h; exact Or.inr ⟨rfl, rfl, rfl⟩
    · simp only [h0, if_false] at h
      rcases ih _ _ _ r h with h | h
      · rcases List.mem_append.mp h with h | h
        · exact Or.inl h
        · rw [List.mem_singleton] at h
          subst h; exact Or.inr ⟨rfl, rfl, rfl⟩
      · exact Or.inr h

theorem listLoop_requests_mono {α : Type} (client : Opts → List α) (after before : Int) :
    ∀ (fuel i : Nat) (requests : List Opts) (activities : List α) (r : Opts),
      r ∈ requests → r ∈ (listLoop client after before fuel i requests activities).1 := by
  intro fuel
  induction fuel with
  | zero => intro i requests activities r h; exact h
  | succ f ih =>
    intro i requests activities r h
    rw [listLoop]
    by_cases h0 : (client (listingOpts after before i)).length = 0
    · simp only [h0, if_true]
      exact List.mem_append_left _ h
    · simp only [h0, if_false]
      exact ih _ _ _ r (List.mem_append_left _ h)

/-- The request of page 1 is sent as soon as the loop is entered. -/
theorem listLoop_first {α : Type} (client : Opts → List α) (after before : Int)
    (fuel : Nat) :
    listingOpts after before 1 ∈ (listLoop client after before (fuel + 1) 1 [] []).1 := by
  rw [listLoop]
  by_cases h0 : (client (listingOpts after before 1)).length = 0
  · simp [h0]
  · simp only [h0, if_false]
    exact listLoop_requests_mono client after before fuel _ _ _ _ (by simp)

theorem listingOpts_of_small (after before : Int) (k : Nat) (h : k < 2147483648) :
    listingOpts after before k
      = { After := int32 after, Before := int32 before, Page := (k : Int), PerPage := 200 } := by
  unfold listingOpts
  rw [int32_of_fits (k : Int) (by omega) (by omega)]


/-! ## The claims -/

/-- C1. With all I/O succeeding, the routes returned by the per-activity loop are,
in listing order, the routes `routeOf` assigns to the listed activities: the
decoding of the cached record when the activity is cached, else the decoding of
the fetched polyline when that is not empty. An uncached activity whose polyline
is empty is assigned no route, and the loop goes on after it: the routes are
those of the listing without it. In the scenario
(listing 1, 2, 3; activity 1 cached as `"_p~iF~ps|U"`; activity 2 with an empty
polyline; activity 3 with `"_p~iF~ps|U"`) a decoder that decodes `"_p~iF~ps|U"`
to `r` yields exactly two routes, `r` for activity 1 then `r` for activity 3. -/
theorem aggregate_routes_in_listing_order {ρ : Type} (DecodeCoords : Bytes → Option ρ) :
    (∀ (cache : Cache) (remote : Int → Bytes) (activities : List Int),
      (aggregate DecodeCoords cache (succeedingRun remote activities)).polylines
        = activities.filterMap (routeOf DecodeCoords cache remote)) ∧
    (∀ (cache : Cache) (remote : Int → Bytes) (id : Int),
      cache id = none → remote id = [] → routeOf DecodeCoords cache remote id = none) ∧
    (∀ (cache : Cache) (remote : Int → Bytes) (id : Int) (l1 l2 : List Int),
      cache id = none → remote id = [] →
      (aggregate DecodeCoords cache (succeedingRun remote (l1 ++ id :: l2))).polylines
        = (aggregate DecodeCoords cache (succeedingRun remote (l1 ++ l2))).polylines) ∧
    (∀ r : ρ, DecodeCoords examplePolyline = some r →
      (aggregate DecodeCoords scenarioCache (succeedingRun scenarioRemote [1, 2, 3])).polylines
        = [r, r]) := by
  have hall : ∀ (cache : Cache) (remote : Int → Bytes) (activities : List Int),
      (aggregate DecodeCoords cache (succeedingRun remote activities)).polylines
        = activities.filterMap (routeOf DecodeCoords cache remote) := by
    intro cache remote activities
    have := aggregateLoop_succeeding_polylines DecodeCoords remote activities
      (MapState.init cache)
    simpa [aggregate, MapState.init] using this
  have hnone : ∀ (cache : Cache) (remote : Int → Bytes) (id : Int),
      cache id = none → remote id = [] → routeOf DecodeCoords cache remote id = none := by
    intro cache remote id hc hr
    simp [routeOf, hc, hr]
  refine ⟨hall, hnone, ?_, ?_⟩
  · intro cache remote id l1 l2 hc hr
    rw [hall, hall]
    simp [List.filterMap_append, List.filterMap_cons, hnone cache remote id hc hr]
  · intro r hdec
    rw [hall]
    have h1 : routeOf DecodeCoords scenarioCache scenarioRemote 1 = some r := by
      simp [routeOf, scenarioCache, Cache.put, hdec]
    have h2 : routeOf DecodeCoords scenarioCache scenarioRemote 2 = none := by
      simp [routeOf, scenarioCache, Cache.put, Cache.empty, scenarioRemote]
    have hne : examplePolyline ≠ [] := by decide
    have h3 : routeOf DecodeCoords scenarioCache scenarioRemote 3 = some r := by
      simp [routeOf, scenarioCache, Cache.put, Cache.empty, scenarioRemote, hdec, hne]
    simp [List.filterMap_cons, h1, h2, h3]

/-- C1, at the reference decoder: the scenario yields the route of activity 1
followed by the route of activity 3, each the single point (38.5, -120.2). -/
theorem aggregate_routes_in_listing_order_witness :
    gopoly.DecodeCoords examplePolyline = some [(3850000, -12020000)] ∧
    (aggregate gopoly.DecodeCoords scenarioCache
        (succeedingRun scenarioRemote [1, 2, 3])).polylines
      = [[(3850000, -12020000)], [(3850000, -12020000)]] :=
  ⟨by decide,
   (aggregate_routes_in_listing_order gopoly.DecodeCoords).2.2.2 [(3850000, -12020000)]
      (by decide)⟩

/-- C2. A request to /auth_callback whose `state` differs from the nonce is
answered with the error response of status 400, hands no authorization code to
the token exchange, and leaves the stored token and the nonce as they were. -/
theorem auth_callback_state_mismatch (Exchange : String → Except String String)
    (g : Globals) (queryCode queryState : String) (h : queryState ≠ g.state) :
    (authCallback Exchange g queryCode queryState).response
        = Response.Error "state verification failed" 400 ∧
    (authCallback Exchange g queryCode queryState).exchanged = [] ∧
    (authCallback Exchange g queryCode queryState).globals.token = g.token ∧
    (authCallback Exchange g queryCode queryState).globals.state = g.state := by
  unfold authCallback
  simp [h]

/-- C2, at a concrete request: nonce `"nonce"`, echoed state `"other"`, and a
token endpoint that would grant the token `"fresh"`. -/
theorem auth_callback_state_mismatch_witness :
    "other" ≠ "nonce" ∧
    (authCallback (fun _ => Except.ok "fresh") ⟨"", "stored", "nonce"⟩ "abc" "other").response
        = Response.Error "state verification failed" 400 ∧
    (authCallback (fun _ => Except.ok "fresh") ⟨"", "stored", "nonce"⟩ "abc" "other").exchanged
        = [] ∧
    (authCallback (fun _ => Except.ok "fresh")
        ⟨"", "stored", "nonce"⟩ "abc" "other").globals.token = "stored" :=
  have h := auth_callback_state_mismatch (fun _ => Except.ok "fresh")
    ⟨"", "stored", "nonce"⟩ "abc" "other" (by decide)
  ⟨by decide, h.1, h.2.1, h.2.2.1⟩

/-- C3, as stated, fails: for the valid dates 01/01/2038 and 19/01/2038 the
`Before` parameter of the first listing request is not the Unix-second value of
20/01/2038, which does not fit in an `int32`. -/
theorem listing_bounds_wrap_after_2038 :
    Date.valid ⟨1, 1, 2038⟩ = true ∧ Date.valid ⟨19, 1, 2038⟩ = true ∧
    Date.le ⟨1, 1, 2038⟩ ⟨19, 1, 2038⟩ = true ∧
    (Date.next ⟨19, 1, 2038⟩).Unix = 2147558400 ∧
    ∃ r ∈ (listActivities (fun _ => ([] : List Int)) ⟨1, 1, 2038⟩ ⟨19, 1, 2038⟩ 1).1,
      r.Before = -2147408896 ∧ r.Before ≠ (Date.next ⟨19, 1, 2038⟩).Unix := by
  refine ⟨by decide, by decide, by decide, by decide, ?_⟩
  exact ⟨listingOpts (AddDate (Parse ⟨1, 1, 2038⟩) (-1)) (AddDate (Parse ⟨19, 1, 2038⟩) 1) 1,
    by decide, by decide, by decide⟩

/-- C3, amended. For all valid dates `after` and `before`, the request of page 1
is sent, and every listing request carries as `After` and `Before` the
Unix-second values of the day before `after` and of the day after `before`,
converted to `int32`; when 15/12/1901 ≤ after ≤ before ≤ 18/01/2038 the
conversion changes nothing and the parameters are those Unix-second values
themselves. -/
theorem listing_bounds_are_widened_dates {α : Type} (client : Opts → List α)
    (after before : Date) (hva : after.valid = true) (hvb : before.valid = true)
    (fuel : Nat) :
    listingOpts after.prev.Unix before.next.Unix 1
      ∈ (listActivities client after before (fuel + 1)).1 ∧
    ∀ r ∈ (listActivities client after before fuel).1,
      r.After = int32 after.prev.Unix ∧ r.Before = int32 before.next.Unix ∧
      (Date.le ⟨15, 12, 1901⟩ after = true → Date.le after before = true →
        Date.le before ⟨18, 1, 2038⟩ = true →
        r.After = after.prev.Unix ∧ r.Before = before.next.Unix) := by
  have hprev : AddDate (Parse after) (-1) = after.prev.Unix := by
    simp only [Parse, hva, if_true, AddDate, Date.Unix, Date.daysSinceEpoch_prev after hva]
    ring
  have hnext : AddDate (Parse before) 1 = before.next.Unix := by
    simp only [Parse, hvb, if_true, AddDate, Date.Unix, Date.daysSinceEpoch_next before hvb]
    ring
  unfold listActivities
  rw [hprev, hnext]
  refine ⟨listLoop_first client _ _ fuel, ?_⟩
  intro r hr
  rcases listLoop_requests client _ _ fuel 1 [] [] r hr with h | ⟨hA, hB, _⟩
  · exact absurd h (List.not_mem_nil r)
  · refine ⟨hA, hB, ?_⟩
    intro h1 h2 h3
    have m1 := Date.daysSinceEpoch_mono ⟨15, 12, 1901⟩ after (by decide) hva h1
    have m2 := Date.daysSinceEpoch_mono after before hva hvb h2
    have m3 := Date.daysSinceEpoch_mono before ⟨18, 1, 2038⟩ hvb (by decide) h3
    have c1 : Date.daysSinceEpoch ⟨15, 12, 1901⟩ = -24854 := by decide
    have c2 : Date.daysSinceEpoch ⟨18, 1, 2038⟩ = 24854 := by decide
    rw [c1] at m1
    rw [c2] at m3
    have p1 := Date.daysSinceEpoch_prev after hva
    have p2 := Date.daysSinceEpoch_next before hvb
    rw [hA, hB]
    constructor
    · apply int32_of_fits <;> simp only [Date.Unix] <;> omega
    · apply int32_of_fits <;> simp only [Date.Unix] <;> omega

/-- C3, amended, at the date range of the redirect of line 72: 30/01/2018 to
30/09/2019, on an account without activities. The one request sent carries the
Unix seconds of 29/01/2018 and of 01/10/2019. -/
theorem listing_bounds_are_widened_dates_witness :
    (listActivities (fun _ => ([] : List Int)) ⟨30, 1, 2018⟩ ⟨30, 9, 2019⟩ 1).1
      = [⟨1517184000, 1569888000, 1, 200⟩] ∧
    (1517184000 : Int) = (Date.prev ⟨30, 1, 2018⟩).Unix ∧
    (1569888000 : Int) = (Date.next ⟨30, 9, 2019⟩).Unix :=
  have h := (listing_bounds_are_widened_dates (fun _ => ([] : List Int))
    ⟨30, 1, 2018⟩ ⟨30, 9, 2019⟩ (by decide) (by decide) 1).2
    ⟨1517184000, 1569888000, 1, 200⟩ (by decide)
  have h2 := h.2.2 (by decide) (by decide) (by decide)
  ⟨by decide, h2.1, h2.2⟩

/-- C4, the code at the failing input: activity 1 is uncached and its detail
fetch returns `"_p~iF~ps|U"`. When `os.Create` fails the loop returns no route
at all, whereas with every operation succeeding it returns the route of the
activity. When only `file.Write` fails the route is returned, and the file that
`os.Create` made stays behind as an empty record. -/
theorem create_failure_drops_route :
    (aggregate gopoly.DecodeCoords Cache.empty [(1, createFails)]).polylines = [] ∧
    (aggregate gopoly.DecodeCoords Cache.empty
        [(1, succeeding scenarioRemote 1)]).polylines = [[(3850000, -12020000)]] ∧
    (aggregate gopoly.DecodeCoords Cache.empty [(1, writeFails)]).polylines
      = [[(3850000, -12020000)]] ∧
    (aggregate gopoly.DecodeCoords Cache.empty [(1, writeFails)]).cache 1 = some [] := by
  decide

/-- C5. When the cached record of activity `a` does not decode, the loop returns
the routes, and leaves the cache, it returns and leaves for the same run without
the iterations of `a`; with all I/O succeeding this is the run of the listing
with `a` removed. -/
theorem malformed_record_skips_only_its_activity {ρ : Type}
    (DecodeCoords : Bytes → Option ρ) (cache : Cache) (a : Int) (b : Bytes)
    (hc : cache a = some b) (hd : DecodeCoords b = none) :
    (∀ run : List (Int × Outcome),
      (aggregate DecodeCoords cache run).polylines
        = (aggregate DecodeCoords cache (run.filter fun e => decide (e.1 ≠ a))).polylines ∧
      (aggregate DecodeCoords cache run).cache
        = (aggregate DecodeCoords cache (run.filter fun e => decide (e.1 ≠ a))).cache) ∧
    (∀ (remote : Int → Bytes) (activities : List Int),
      (aggregate DecodeCoords cache (succeedingRun remote activities)).polylines
        = (aggregate DecodeCoords cache
            (succeedingRun remote (activities.filter fun id => decide (id ≠ a)))).polylines) := by
  have hrun : ∀ run : List (Int × Outcome),
      aggregate DecodeCoords cache run
        = aggregate DecodeCoords cache (run.filter fun e => decide (e.1 ≠ a)) := by
    intro run
    exact aggregateLoop_malformed DecodeCoords a b hd run (MapState.init cache) hc
  refine ⟨fun run => ⟨by rw [← hrun], by rw [← hrun]⟩, ?_⟩
  intro remote activities
  have hf : succeedingRun remote (activities.filter fun id => decide (id ≠ a))
      = (succeedingRun remote activities).filter fun e => decide (e.1 ≠ a) := by
    unfold succeedingRun
    rw [List.filter_map]
    rfl
  rw [hf, ← hrun]

/-- C5, at a concrete cache: the record of activity 1 is the byte 0, that of
activity 3 is `"_p~iF~ps|U"`; the listing 1, 3 yields the route of activity 3. -/
theorem malformed_record_skips_only_its_activity_witness :
    malformedCache 1 = some [0] ∧ gopoly.DecodeCoords [0] = none ∧
    (aggregate gopoly.DecodeCoords malformedCache
        (succeedingRun scenarioRemote [1, 3])).polylines
      = (aggregate gopoly.DecodeCoords malformedCache
          (succeedingRun scenarioRemote ([1, 3].filter fun id => decide (id ≠ 1)))).polylines ∧
    (aggregate gopoly.DecodeCoords malformedCache
        (succeedingRun scenarioRemote [3])).polylines = [[(3850000, -12020000)]] :=
  ⟨by decide, by decide,
   (malformed_record_skips_only_its_activity gopoly.DecodeCoords malformedCache 1 [0]
      (by decide) (by decide)).2 scenarioRemote [1, 3],
   by decide⟩

/-- C6, as stated, fails: in the scenario the detail of activity 2 is fetched
too, so the fetched activities are not exactly the activity 3. -/
theorem scenario_fetches_activity_two :
    scenarioCache 1 = some examplePolyline ∧ scenarioCache 2 = none ∧
    scenarioCache 3 = none ∧ scenarioRemote 2 = [] ∧
    (aggregate gopoly.DecodeCoords scenarioCache
        (succeedingRun scenarioRemote [1, 2, 3])).fetched = [2, 3] ∧
    ¬ (∀ id, id ∈ (aggregate gopoly.DecodeCoords scenarioCache
        (succeedingRun scenarioRemote [1, 2, 3])).fetched ↔ id = 3) := by
  refine ⟨by decide, by decide, by decide, by decide, by decide, ?_⟩
  intro h
  have h2 : (2 : Int) = 3 := (h 2).mp (by decide)
  exact absurd h2 (by decide)

/-- C6, amended. In the scenario (listing 1, 2, 3; activity 1 cached, activities
2 and 3 uncached, the polyline of activity 2 empty, that of activity 3 not) the
detail is fetched for the activities 2 and 3, in this order, and for no other;
a cache file is created and written for activity 3 only. -/
theorem scenario_fetches_both_uncached {ρ : Type} (DecodeCoords : Bytes → Option ρ)
    (cache : Cache) (remote : Int → Bytes) (b : Bytes)
    (h1 : cache 1 = some b) (h2 : cache 2 = none) (h3 : cache 3 = none)
    (hr2 : remote 2 = []) (hr3 : remote 3 ≠ []) :
    (aggregate DecodeCoords cache (succeedingRun remote [1, 2, 3])).fetched = [2, 3] ∧
    (aggregate DecodeCoords cache (succeedingRun remote [1, 2, 3])).created = [3] ∧
    (aggregate DecodeCoords cache (succeedingRun remote [1, 2, 3])).written = [3] ∧
    (aggregate DecodeCoords cache (succeedingRun remote [1, 2, 3])).cache 2 = none ∧
    (aggregate DecodeCoords cache (succeedingRun remote [1, 2, 3])).cache 3
      = some (remote 3) := by
  have e1 : processActivity DecodeCoords (succeeding remote 1) (MapState.init cache) 1
      = decodeStep DecodeCoords (MapState.init cache) b := by
    rw [processActivity_hit DecodeCoords _ _ 1 b h1]
    simp [succeeding]
  simp only [aggregate, succeedingRun, List.map_cons, List.map_nil, aggregateLoop, e1]
  generalize hs : decodeStep DecodeCoords (MapState.init cache) b = s
  have hsc : s.cache = cache := by rw [← hs, decodeStep_cache]; rfl
  have hsf : s.fetched = [] := by rw [← hs, decodeStep_fetched]; rfl
  have hscr : s.created = [] := by rw [← hs, decodeStep_created]; rfl
  have hsw : s.written = [] := by rw [← hs, decodeStep_written]; rfl
  have e2 : processActivity DecodeCoords (succeeding remote 2) s 2
      = { s with fetched := s.fetched ++ [2] } := by
    unfold processActivity
    simp [hsc, h2, succeeding, hr2]
  rw [e2]
  have e3 : processActivity DecodeCoords (succeeding remote 3)
      { s with fetched := s.fetched ++ [2] } 3
      = decodeStep DecodeCoords
          { s with fetched := s.fetched ++ [2] ++ [3], created := s.created ++ [3],
                   cache := s.cache.put 3 (remote 3), written := s.written ++ [3] }
          (remote 3) := by
    unfold processActivity
    simp [hsc, h3, succeeding, hr3, fileAfterWrite]
  rw [e3, decodeStep_fetched, decodeStep_created, decodeStep_written, decodeStep_cache]
  simp [hsc, hsf, hscr, hsw, Cache.put, h2]

/-- C6, amended, at the scenario itself with the reference decoder. -/
theorem scenario_fetches_both_uncached_witness :
    (aggregate gopoly.DecodeCoords scenarioCache
        (succeedingRun scenarioRemote [1, 2, 3])).fetched = [2, 3] ∧
    (aggregate gopoly.DecodeCoords scenarioCache
        (succeedingRun scenarioRemote [1, 2, 3])).written = [3] :=
  have h := scenario_fetches_both_uncached gopoly.DecodeCoords scenarioCache scenarioRemote
    examplePolyline (by decide) (by decide) (by decide) (by decide) (by decide)
  ⟨h.1, h.2.2.1⟩

/-- C7. When every listed activity has a cached record that can be read, the
loop issues no detail fetch, no `os.Create` and no `file.Write`, leaves the cache
as it is, and returns the decodings of the cached records in listing order, a
function of the listing and the cached bytes alone; any further run over the
same listing with readable records, started on the cache the first run left,
returns the same routes. -/
theorem cache_hits_are_idempotent {ρ : Type} (DecodeCoords : Bytes → Option ρ)
    (cache : Cache) (run : List (Int × Outcome))
    (hhit : ∀ e ∈ run, (cache e.1).isSome = true ∧ e.2.ReadFile = true) :
    (aggregate DecodeCoords cache run).fetched = [] ∧
    (aggregate DecodeCoords cache run).created = [] ∧
    (aggregate DecodeCoords cache run).written = [] ∧
    (aggregate DecodeCoords cache run).cache = cache ∧
    (aggregate DecodeCoords cache run).polylines
      = (run.map Prod.fst).filterMap (fun id => (cache id).bind DecodeCoords) ∧
    ∀ run2 : List (Int × Outcome), run2.map Prod.fst = run.map Prod.fst →
      (∀ e ∈ run2, e.2.ReadFile = true) →
      (aggregate DecodeCoords (aggregate DecodeCoords cache run).cache run2).polylines
        = (aggregate DecodeCoords cache run).polylines := by
  have h1 : aggregate DecodeCoords cache run
      = ({ cache := cache,
           polylines := (run.map Prod.fst).filterMap fun id => (cache id).bind DecodeCoords,
           fetched := [], created := [], written := [] } : MapState ρ) := by
    have := aggregateLoop_all_hits DecodeCoords run (MapState.init cache) hhit
    simpa [aggregate, MapState.init] using this
  refine ⟨by rw [h1], by rw [h1], by rw [h1], by rw [h1], by rw [h1], ?_⟩
  intro run2 hsame hread
  have hc : (aggregate DecodeCoords cache run).cache = cache := by rw [h1]
  have hhit2 : ∀ e ∈ run2, (cache e.1).isSome = true ∧ e.2.ReadFile = true := by
    intro e he
    have hmem : e.1 ∈ run.map Prod.fst := by
      rw [← hsame]
      exact List.mem_map_of_mem Prod.fst he
    obtain ⟨e1, he1, heq⟩ := List.mem_map.mp hmem
    exact ⟨heq ▸ (hhit e1 he1).1, hread e he⟩
  have h2 := aggregateLoop_all_hits DecodeCoords run2 (MapState.init cache) hhit2
  rw [hc]
  simp only [aggregate] at h1 ⊢
  rw [h2, h1, hsame]
  simp [MapState.init]

/-- C7, at a concrete run: the listing 3, 1, 3 on the cache holding the byte 0
for activity 1 and `"_p~iF~ps|U"` for activity 3. -/
theorem cache_hits_are_idempotent_witness :
    (aggregate gopoly.DecodeCoords malformedCache
        (succeedingRun scenarioRemote [3, 1, 3])).fetched = [] ∧
    (aggregate gopoly.DecodeCoords malformedCache
        (succeedingRun scenarioRemote [3, 1, 3])).written = [] ∧
    (aggregate gopoly.DecodeCoords malformedCache
        (succeedingRun scenarioRemote [3, 1, 3])).cache = malformedCache ∧
    (aggregate gopoly.DecodeCoords malformedCache
        (succeedingRun scenarioRemote [3, 1, 3])).polylines
      = [[(3850000, -12020000)], [(3850000, -12020000)]] :=
  have h := cache_hits_are_idempotent gopoly.DecodeCoords malformedCache
    (succeedingRun scenarioRemote [3, 1, 3]) (by decide)
  ⟨h.1, h.2.2.1, h.2.2.2.1, by decide⟩

/-- C8. Let page `N₀`, a positive `int32` page number, be empty. Then there is a
first empty page `N ≤ N₀`, and with at least `N` iterations allowed the loop
stops: it has sent exactly the requests of the pages 1, 2, ..., `N` in this
order, each with page size 200 and the same two bounds, and it has collected
the concatenation, in page order, of the pages 1, ..., `N - 1`. -/
theorem listing_stops_at_first_empty_page {α : Type} (client : Opts → List α)
    (after before : Int) (N₀ : Nat) (h1 : 1 ≤ N₀) (h31 : N₀ < 2 ^ 31)
    (hempty : page client after before N₀ = []) :
    ∃ N, 1 ≤ N ∧ N ≤ N₀ ∧ page client after before N = [] ∧
      (∀ k, 1 ≤ k → k < N → page client after before k ≠ []) ∧
      ∀ fuel, N ≤ fuel →
        listLoop client after before fuel 1 [] []
          = ((List.range' 1 N).map fun k =>
               { After := int32 after, Before := int32 before, Page := (k : Int),
                 PerPage := 200 },
             some ((List.range' 1 (N - 1)).map (page client after before)).flatten) := by
  classical
  have hex : ∃ n, 1 ≤ n ∧ page client after before n = [] := ⟨N₀, h1, hempty⟩
  obtain ⟨hN1, hNe⟩ := Nat.find_spec hex
  have hNle : Nat.find hex ≤ N₀ := Nat.find_min' hex ⟨h1, hempty⟩
  have hmin : ∀ k, 1 ≤ k → k < Nat.find hex → page client after before k ≠ [] :=
    fun k hk1 hk he => Nat.find_min hex hk ⟨hk1, he⟩
  refine ⟨Nat.find hex, hN1, hNle, hNe, hmin, ?_⟩
  generalize Nat.find hex = N at hN1 hNe hNle hmin
  intro fuel hfuel
  have h31n : N₀ < 2147483648 := by norm_num at h31; exact h31
  have hpage : ∀ k, k ≤ N → client (listingOpts after before k) = page client after before k := by
    intro k hk
    rw [listingOpts_of_small after before k (by omega)]
    rfl
  have hrun := listLoop_run client after before (N - 1) 1 fuel [] []
    (fun k hk => by
      rw [hpage (1 + k) (by omega)]
      exact hmin (1 + k) (by omega) (by omega))
    (by
      rw [hpage (1 + (N - 1)) (by omega), show 1 + (N - 1) = N by omega]
      exact hNe)
    (by omega)
  rw [hrun, show N - 1 + 1 = N by omega]
  simp only [List.nil_append, Prod.mk.injEq, Option.some.injEq]
  constructor
  · apply List.map_congr_left
    intro k hk
    rw [List.mem_range'_1] at hk
    exact listingOpts_of_small after before k (by omega)
  · have hmap : (List.range' 1 (N - 1)).map (fun k => client (listingOpts after before k))
        = (List.range' 1 (N - 1)).map (page client after before) := by
      apply List.map_congr_left
      intro k hk
      rw [List.mem_range'_1] at hk
      exact hpage k (by omega)
    rw [hmap]

/-- C8, at an account of two non-empty pages: page 3 is the first empty one, the
loop sends the requests of the pages 1, 2, 3 and collects 11, 12, 21. -/
theorem listing_stops_at_first_empty_page_witness :
    page twoPages 0 0 3 = [] ∧
    (∃ N, 1 ≤ N ∧ N ≤ 3 ∧ page twoPages 0 0 N = [] ∧
      (∀ k, 1 ≤ k → k < N → page twoPages 0 0 k ≠ []) ∧
      ∀ fuel, N ≤ fuel →
        listLoop twoPages 0 0 fuel 1 [] []
          = ((List.range' 1 N).map fun k =>
               { After := int32 0, Before := int32 0, Page := (k : Int), PerPage := 200 },
             some ((List.range' 1 (N - 1)).map (page twoPages 0 0)).flatten)) ∧
    listLoop twoPages 0 0 3 1 [] []
      = ([⟨0, 0, 1, 200⟩, ⟨0, 0, 2, 200⟩, ⟨0, 0, 3, 200⟩], some [11, 12, 21]) :=
  ⟨by decide,
   listing_stops_at_first_empty_page twoPages 0 0 3 (by decide) (by norm_num) (by decide),
   by decide⟩

/-- C9, as stated, fails, in two ways. Activity 1 uncached, detail fetch
returning `"_p~iF~ps|U"`, `os.Create` succeeding and `file.Write` failing before
any byte is written: the run adds a record for activity 1 that is empty, not the
fetched polyline. Activity 1 cached as the byte 0 and `os.Stat` returning an
error on its file: the record is taken for missing and rewritten, so the
identifier has other bytes after the run than before it. -/
theorem failed_write_or_stat_breaks_records :
    (Cache.empty 1 = none ∧
      writeFails.GetActivityById = some examplePolyline ∧
      (aggregateStat gopoly.DecodeCoords Cache.empty
          [(1, { Stat := true, rest := writeFails })]).cache 1 = some [] ∧
      (aggregateStat gopoly.DecodeCoords Cache.empty
          [(1, { Stat := true, rest := writeFails })]).cache 1 ≠ some examplePolyline) ∧
    (malformedCache 1 = some [0] ∧
      (aggregateStat gopoly.DecodeCoords malformedCache [(1, statFails)]).cache 1
        = some examplePolyline ∧
      (aggregateStat gopoly.DecodeCoords malformedCache [(1, statFails)]).cache 1
        ≠ malformedCache 1) := by
  decide

/-- C9, amended. Whatever the listing, the remote answers and the outcomes of
the file operations, `os.Stat` included: every identifier with a record before
the run has a record after it, and that record has the same bytes when
`os.Stat` returned no error for it during the run; a record that is there after
the run and was not there with these bytes before it belongs to a listed
activity whose record was missing or whose `os.Stat` failed, whose detail fetch
returned a non-empty polyline and whose file `os.Create` made, and it holds
what `file.Write` wrote of that polyline: a prefix of it, and the whole
polyline when the write succeeded. -/
theorem cache_records_change_only_after_failed_stat {ρ : Type}
    (DecodeCoords : Bytes → Option ρ) (cache : Cache) (run : List (Int × Answers)) :
    (∀ id, (cache id).isSome = true →
      ((aggregateStat DecodeCoords cache run).cache id).isSome = true) ∧
    (∀ id b, cache id = some b → (∀ e ∈ run, e.1 = id → e.2.Stat = true) →
      (aggregateStat DecodeCoords cache run).cache id = some b) ∧
    (∀ id b, (aggregateStat DecodeCoords cache run).cache id = some b →
      cache id ≠ some b →
      ∃ a polyline, (id, a) ∈ run ∧ (cache id = none ∨ a.Stat = false) ∧
        a.rest.GetActivityById = some polyline ∧ polyline ≠ [] ∧
        a.rest.Create = true ∧ b = fileAfterWrite polyline a.rest.Write ∧
        b <+: polyline ∧ (a.rest.Write = none → b = polyline)) := by
  refine ⟨?_, ?_, ?_⟩
  · intro id h
    exact aggregateLoopStat_isSome DecodeCoords run (MapState.init cache) id h
  · intro id b h hst
    exact aggregateLoopStat_keeps DecodeCoords run (MapState.init cache) id b h hst
  · intro id b h1 h0
    obtain ⟨a, p, hmem, hm, hg, hp, hcr, hb⟩ :=
      aggregateLoopStat_changed DecodeCoords run (MapState.init cache) id b h1 h0
    refine ⟨a, p, hmem, hm, hg, hp, hcr, hb, ?_, ?_⟩
    · rw [hb]
      unfold fileAfterWrite
      cases a.rest.Write with
      | none => exact List.prefix_refl p
      | some n => exact List.take_prefix n p
    · intro hw
      rw [hb, hw]
      rfl

/-- C9, amended, at the scenario with `os.Stat` and all other I/O succeeding:
after the run over 1, 2, 3 the record of activity 1 is the one it was, and the
record of activity 3, missing before, is the fetched polyline `"_p~iF~ps|U"`. -/
theorem cache_records_change_only_after_failed_stat_witness :
    (aggregateStat gopoly.DecodeCoords scenarioCache
        (succeedingStatRun scenarioRemote [1, 2, 3])).cache 1 = some examplePolyline ∧
    (aggregateStat gopoly.DecodeCoords scenarioCache
        (succeedingStatRun scenarioRemote [1, 2, 3])).cache 3 = some examplePolyline ∧
    (∃ a polyline, (3, a) ∈ succeedingStatRun scenarioRemote [1, 2, 3] ∧
        (scenarioCache 3 = none ∨ a.Stat = false) ∧
        a.rest.GetActivityById = some polyline ∧ polyline ≠ [] ∧
        a.rest.Create = true ∧ examplePolyline = fileAfterWrite polyline a.rest.Write ∧
        examplePolyline <+: polyline ∧ (a.rest.Write = none → examplePolyline = polyline)) :=
  have h := cache_records_change_only_after_failed_stat gopoly.DecodeCoords scenarioCache
    (succeedingStatRun scenarioRemote [1, 2, 3])
  ⟨h.2.1 1 examplePolyline (by decide) (by decide), by decide,
   h.2.2 3 examplePolyline (by decide) (by decide)⟩

/-- C10. With all I/O succeeding, for every listing, repeated identifiers
included, and every remote detail function: when every cached record equals the
non-empty remote polyline of its identifier, the loop returns the routes it
returns from the empty cache, and the cache it leaves has the same property. -/
theorem caching_does_not_change_result {ρ : Type} (DecodeCoords : Bytes → Option ρ)
    (remote : Int → Bytes) (cache : Cache) (activities : List Int)
    (h : Consistent remote cache) :
    (aggregate DecodeCoords cache (succeedingRun remote activities)).polylines
      = (aggregate DecodeCoords Cache.empty (succeedingRun remote activities)).polylines ∧
    Consistent remote (aggregate DecodeCoords cache (succeedingRun remote activities)).cache := by
  constructor
  · have e1 := aggregateLoop_succeeding_polylines DecodeCoords remote activities
      (MapState.init cache)
    have e2 := aggregateLoop_succeeding_polylines DecodeCoords remote activities
      (MapState.init Cache.empty)
    simp only [aggregate]
    rw [e1, e2]
    have hfun : routeOf DecodeCoords cache remote = routeOf DecodeCoords Cache.empty remote :=
      funext fun id => routeOf_of_consistent DecodeCoords remote cache h id
    simp only [MapState.init, hfun]
  · exact aggregateLoop_succeeding_consistent DecodeCoords remote activities
      (MapState.init cache) h

/-- The cache of the scenario agrees with the remote polylines of the scenario. -/
theorem scenarioCache_consistent : Consistent scenarioRemote scenarioCache := by
  intro id b hb
  by_cases h1 : id = 1
  · subst h1
    have : b = examplePolyline := by
      simpa [scenarioCache, Cache.put] using hb.symm
    subst this
    exact ⟨by decide, by decide⟩
  · simp [scenarioCache, Cache.put, Cache.empty, h1] at hb

/-- C10, at the scenario with activity 3 listed twice: the cached run and the
run from the empty cache both return three routes. -/
theorem caching_does_not_change_result_witness :
    (aggregate gopoly.DecodeCoords scenarioCache
        (succeedingRun scenarioRemote [1, 2, 3, 3])).polylines
      = (aggregate gopoly.DecodeCoords Cache.empty
          (succeedingRun scenarioRemote [1, 2, 3, 3])).polylines ∧
    (aggregate gopoly.DecodeCoords Cache.empty
        (succeedingRun scenarioRemote [1, 2, 3, 3])).polylines
      = [[(3850000, -12020000)], [(3850000, -12020000)], [(3850000, -12020000)]] :=
  ⟨(caching_does_not_change_result gopoly.DecodeCoords scenarioRemote scenarioCache
      [1, 2, 3, 3] scenarioCache_consistent).1,
   by decide⟩

end Plotted
